import Mathlib

/-!
Verification of the CRM "People & Birthdays" component
(`src/project/src/components/CRM.jsx`; the unnamed second source file is the
same component with different CSS classes and identical logic).

The component's logic is embedded shallowly:

* A `Person` record mirrors the fields handled by the form
  (`_id`, `firstName`, `lastName`, `email`, `phone`, `birthday`, `notes`);
  `birthday` is an `Option String` because the code stores either a
  `'YYYY-MM-DD'` string or `null`.
* `dayjs` values are modelled by `Dayjs`: either an Invalid Date or a valid
  local calendar instant `⟨year, month (1-12), day, msOfDay⟩`.  Timestamps
  are exact integer milliseconds from the epoch assuming a fixed UTC offset
  (the component never crosses a DST boundary inside a computation: all
  values share one offset, so only differences matter and the offset
  cancels; dayjs's `zoneDelta` term in `diff` is 0 under this assumption).
* dayjs semantics embedded from the library's behaviour:
  - `dayjs(string)` parses via the ISO regex; this model covers the
    `YYYY-MM-DD` shapes the app itself writes (`handleSubmit` formats dates
    as `'YYYY-MM-DD'`), including dayjs's quirks on those shapes:
    components rolled over by the JS `Date` constructor, the two-digit-year
    rule of `new Date(y, m, d)` for years ≤ 99, `'/'` accepted as a
    separator, missing month/day components defaulting as in
    `new Date(d[1], d[2] - 1 || 0, d[3] || 1)`.  Strings outside these
    shapes (time components, compact ISO, locale strings handed to the
    native `Date` fallback, whose parsing is implementation-defined) are
    modelled as Invalid Date.
  - the `.year(v)` setter clamps the day-of-month to the target month's
    length (dayjs `$set` sets the date to 1, sets the year, then restores
    `min(day, daysInMonth)`), so Feb 29 set to a non-leap year is Feb 28;
  - `.add(n, 'month')` (used inside `diff(_, 'year')`'s month-difference
    helper) clamps the same way;
  - `.diff(that, 'day')` is `absFloor((this - that) / 86400000)` where
    `absFloor` truncates toward zero; `.diff(that)` is the raw millisecond
    difference; `.diff(that, 'year')` is `absFloor(monthDiff(this, that) / 12)`
    with `monthDiff` the exact moment-style rational month difference,
    carried here as a numerator/denominator pair of integers;
  - arithmetic on an Invalid Date stays invalid, comparisons and `<=`
    against its `NaN` results are `false`.
* `Array.prototype.sort` with the component's comparator is a stable
  comparison sort; the comparator is consistent (an integer key difference),
  so the output is the unique stable order, modelled by a stable insertion
  sort (`sortByJS`).
* `IMPORTANT modelling fact`: dayjs objects are immutable.  In
  `getUpcomingBirthdays` (and in the card rendering) the source executes
  `if (nextBirthday.isBefore(today)) { nextBirthday.add(1, 'year') }`
  as a bare statement: `add` returns a fresh object that is discarded, so
  `nextBirthday` is never re-anchored.  The embedding reproduces exactly
  this behaviour; `nextBirthdayOf` keeps the current-year anchor
  unconditionally, as the running code does.

Definitions named `spec...` are NOT embeddings of the source: they follow
the specification's words (next-occurrence rule, days-until, whole-year
age) and exist to be compared with the code's behaviour.
-/

/-- A contact record as handled by the CRM form (`handleSubmit` writes
`firstName`, `lastName`, `email`, `phone`, `birthday`, `notes`); `_id` is the
opaque entity-store key used as `rowKey`. `birthday` is `'YYYY-MM-DD'` or
`null`. -/
structure Person where
  _id : Nat
  firstName : String
  lastName : String
  email : Option String
  phone : Option String
  birthday : Option String
  notes : Option String
deriving DecidableEq, Repr

/-- Gregorian leap year, as implemented by the JS `Date` calendar. -/
def isLeapYear (y : Int) : Bool :=
  (y % 4 = 0 && !(y % 100 = 0)) || y % 400 = 0

/-- Length of month `m` (1-12) of year `y` in the proleptic Gregorian
calendar (`dayjs(...).daysInMonth()` / JS `Date` month lengths). Months
outside 1-12 never reach this function. -/
def daysInMonth (y : Int) (m : Nat) : Nat :=
  match m with
  | 1 => 31
  | 2 => if isLeapYear y then 29 else 28
  | 3 => 31
  | 4 => 30
  | 5 => 31
  | 6 => 30
  | 7 => 31
  | 8 => 31
  | 9 => 30
  | 10 => 31
  | 11 => 30
  | 12 => 31
  | _ => 0

/-- Day-of-year offset of the first day of month `m` counted from March 1
(the March-based month table of the standard civil-from-days conversion;
the values are `(153 * mShifted + 2) / 5` precomputed). -/
def monthDoy (m : Nat) : Nat :=
  match m with
  | 3 => 0
  | 4 => 31
  | 5 => 61
  | 6 => 92
  | 7 => 122
  | 8 => 153
  | 9 => 184
  | 10 => 214
  | 11 => 245
  | 12 => 275
  | 1 => 306
  | 2 => 337
  | _ => 0

/-- Days contributed by whole years up to March 1 of year `y + 1` in the
standard days-from-civil conversion. -/
def yearTerm (y : Int) : Int :=
  365 * y + y / 4 - y / 100 + y / 400

/-- Days since the Unix epoch (1970-01-01) of the civil date `(y, m, d)`,
the integer-arithmetic form of the standard days-from-civil conversion used
by every timestamp the JS `Date` object exposes. -/
def daysFromCivil (y : Int) (m d : Nat) : Int :=
  yearTerm (if m ≤ 2 then y - 1 else y) + (monthDoy m : Int) + (d : Int) - 1 - 719468

/-- A valid local instant held by a dayjs object: calendar date plus
milliseconds within the day. -/
structure CalDT where
  y : Int
  m : Nat
  d : Nat
  ms : Nat
deriving DecidableEq, Repr

/-- `x` is a real calendar instant: month in 1-12, day within the month,
time within the day. -/
def CalDT.Valid (x : CalDT) : Prop :=
  1 ≤ x.m ∧ x.m ≤ 12 ∧ 1 ≤ x.d ∧ x.d ≤ daysInMonth x.y x.m ∧ x.ms < 86400000

instance (x : CalDT) : Decidable x.Valid := by
  unfold CalDT.Valid; infer_instance

/-- Epoch timestamp in milliseconds (`valueOf()` of the dayjs object, under
the fixed-offset convention explained in the header). -/
def tsOf (x : CalDT) : Int :=
  86400000 * daysFromCivil x.y x.m x.d + (x.ms : Int)

/-- A dayjs object: an Invalid Date (`new Date(NaN)`) or a valid instant. -/
inductive Dayjs where
  | invalid : Dayjs
  | valid : CalDT → Dayjs
deriving DecidableEq, Repr

/-- The month before month `m` of year `y`. -/
def prevMonthOf (y : Int) (m : Nat) : Int × Nat :=
  if m = 1 then (y - 1, 12) else (y, m - 1)

/-- The month after month `m` of year `y`. -/
def nextMonthOf (y : Int) (m : Nat) : Int × Nat :=
  if m = 12 then (y + 1, 1) else (y, m + 1)

/-- JS `new Date(y, m-1, dRaw)` day normalisation: the date that is
`dOff = dRaw - 1` days after the first of month `m` of year `y`.  For the
parser's inputs `dOff ∈ [-1, 98]`, so fuel 5 always suffices; the fuel-0
branch is unreachable there. -/
def dayRoll (fuel : Nat) (y : Int) (m : Nat) (dOff : Int) : Dayjs :=
  match fuel with
  | 0 => .invalid
  | fuel + 1 =>
    if dOff < 0 then
      let p := prevMonthOf y m
      .valid ⟨p.1, p.2, daysInMonth p.1 p.2 + (dOff + 1).toNat, 0⟩
    else if dOff < (daysInMonth y m : Int) then
      .valid ⟨y, m, dOff.toNat + 1, 0⟩
    else
      let p := nextMonthOf y m
      dayRoll fuel p.1 p.2 (dOff - (daysInMonth y m : Int))

/-- Split a character list at every `'-'` or `'/'` (the separators the
dayjs ISO regex accepts between date components). -/
def splitSep : List Char → List (List Char)
  | [] => [[]]
  | c :: rest =>
    let r := splitSep rest
    if c = '-' ∨ c = '/' then [] :: r
    else
      match r with
      | h :: t => (c :: h) :: t
      | [] => [[c]]

/-- Value of a non-empty all-digit character list. -/
def digitsVal : List Char → Option Nat
  | [] => none
  | cs =>
    if cs.all (fun c => c.isDigit) then
      some (cs.foldl (fun a c => 10 * a + (c.toNat - 48)) 0)
    else none

/-- `new Date(yRaw, m0, dRaw)` of the dayjs ISO-regex parse: applies the
two-digit-year rule, normalises the (possibly out-of-range) month with
floor arithmetic and rolls the day through month lengths. -/
def jsMakeDate (yRaw : Nat) (m0 : Int) (dRaw : Nat) : Dayjs :=
  let y1 : Int := if yRaw ≤ 99 then 1900 + (yRaw : Int) else (yRaw : Int)
  let t : Int := 12 * y1 + m0
  dayRoll 5 (t / 12) ((t % 12).toNat + 1) ((dRaw : Int) - 1)

/-- The month index of a present month component: `d[2] - 1 || 0` gives
index `-1` for an empty capture (`'' - 1` is `-1`) and `v - 1` otherwise;
a non-digit component fails the regex. -/
def parseM0 (mcs : List Char) : Option Int :=
  match mcs with
  | [] => some (-1)
  | _ => (digitsVal mcs).map (fun mv => (mv : Int) - 1)

/-- The day component: `d[3] || 1` gives 1 for an empty capture and the
numeric value otherwise (`'0'` is truthy, so day 0 stays 0). -/
def parseDay (dcs : List Char) : Option Nat :=
  match dcs with
  | [] => some 1
  | _ => digitsVal dcs

/-- `dayjs(s)` for the string shapes reachable from this app (see header):
year of exactly 4 digits, then optionally month and day components of at
most 2 digits, separated by `-` or `/`.  Missing or empty month behaves as
`d[2] - 1 || 0` (empty string gives month index `-1`), missing or empty day
as `d[3] || 1` (with `'0'`/`'00'` giving day 0).  Everything else is an
Invalid Date. -/
def dayjs (s : String) : Dayjs :=
  match splitSep s.data with
  | [ycs] =>
    match digitsVal ycs with
    | some yv => if ycs.length = 4 then jsMakeDate yv 0 1 else .invalid
    | none => .invalid
  | [ycs, mcs] =>
    match digitsVal ycs with
    | some yv =>
      if ycs.length = 4 ∧ mcs.length ≤ 2 then
        match parseM0 mcs with
        | some m0 => jsMakeDate yv m0 1
        | none => .invalid
      else .invalid
    | none => .invalid
  | [ycs, mcs, dcs] =>
    match digitsVal ycs with
    | some yv =>
      if ycs.length = 4 ∧ mcs.length ≤ 2 ∧ dcs.length ≤ 2 then
        match parseM0 mcs, parseDay dcs with
        | some m0, some dv => jsMakeDate yv m0 dv
        | _, _ => .invalid
      else .invalid
    | none => .invalid
  | _ => .invalid

/-- dayjs `.year(v)` setter: `$set` moves to day 1, sets the year, then
restores `min(day, daysInMonth)` — Feb 29 clamps to Feb 28 in non-leap
years.  Invalid stays invalid. -/
def Dayjs.setYear : Dayjs → Int → Dayjs
  | .invalid, _ => .invalid
  | .valid x, v => .valid ⟨v, x.m, min x.d (daysInMonth v x.m), x.ms⟩

/-- dayjs `.isBefore(that)` at default (millisecond) granularity; any
comparison involving an Invalid Date's `NaN` value is `false`. -/
def Dayjs.isBefore : Dayjs → Dayjs → Bool
  | .valid a, .valid b => tsOf a < tsOf b
  | _, _ => false

/-- JS `absFloor(a / b)` for integer `a` and positive integer `b`: the
real quotient truncated toward zero. -/
def absFloorDiv (a b : Int) : Int :=
  if 0 ≤ a then a / b else -((-a) / b)

/-- dayjs `.diff(that, 'day')`: `absFloor((this - that) / 86400000)`
(zone delta 0 under the fixed-offset convention); `none` models the `NaN`
produced when either side is invalid. -/
def Dayjs.diffDays : Dayjs → Dayjs → Option Int
  | .valid a, .valid b => some (absFloorDiv (tsOf a - tsOf b) 86400000)
  | _, _ => none

/-- dayjs `.add(n, 'month')` (used by the month-difference helper inside
`diff(_, 'year')`): shift the month index with floor arithmetic and clamp
the day-of-month to the target month's length, keeping the time of day. -/
def addMonths (x : CalDT) (n : Int) : CalDT :=
  let t : Int := 12 * x.y + ((x.m : Int) - 1) + n
  let y' := t / 12
  let m' := (t % 12).toNat + 1
  ⟨y', m', min x.d (daysInMonth y' m'), x.ms⟩

/-- The moment-style month difference `monthDiff(a, b)` of dayjs for the
branch `a.date() >= b.date()`, as an exact rational `num / den` (months):
`-(wholeMonthDiff + (b - anchor) / (anchor' - anchor))` with the anchors
produced by clamped month addition. -/
def monthDiffCore (a b : CalDT) : Int × Int :=
  let w : Int := (12 * b.y + (b.m : Int)) - (12 * a.y + (a.m : Int))
  let anchor := addMonths a w
  let fn := tsOf b - tsOf anchor
  if fn < 0 then
    let anchor2 := addMonths a (w - 1)
    let den := tsOf anchor - tsOf anchor2
    (-(w * den + fn), den)
  else
    let anchor2 := addMonths a (w + 1)
    let den := tsOf anchor2 - tsOf anchor
    (-(w * den + fn), den)

/-- dayjs `monthDiff(self, that)` with the `date()` swap branch:
`if (a.date() < b.date()) return -monthDiff(b, a)`. -/
def monthsRat (self that : CalDT) : Int × Int :=
  if self.d < that.d then
    let p := monthDiffCore that self
    (-p.1, p.2)
  else monthDiffCore self that

/-- A JS number that is either `NaN` or an integer (all numbers produced
by the component's date arithmetic are integral). -/
inductive JsNum where
  | nan : JsNum
  | int : Int → JsNum
deriving DecidableEq, Repr

/-- `getAge` (CRM.jsx lines 80-85): `null` for a falsy birthday (absent or
the empty string), otherwise `today.diff(dayjs(birthday), 'year')`, which
is `absFloor(monthDiff / 12)`; an unparseable birthday gives `NaN`. -/
def getAge (today : CalDT) (birthday : Option String) : Option JsNum :=
  match birthday with
  | none => none
  | some s =>
    if s = "" then none
    else
      match dayjs s with
      | .invalid => some .nan
      | .valid bd =>
        let p := monthsRat today bd
        some (.int (absFloorDiv p.1 (12 * p.2)))

/-- Stable insertion of `a` into a sorted list: `a` is placed before the
first element `b` with `le a b`. -/
def insertSorted (le : α → α → Bool) (a : α) : List α → List α
  | [] => [a]
  | b :: l => if le a b then a :: b :: l else b :: insertSorted le a l

/-- Stable insertion sort.  `Array.prototype.sort` is a stable comparison
sort and the component's comparator is consistent (integer key
difference), so the sorted output is unique and this models it exactly. -/
def sortByJS (le : α → α → Bool) : List α → List α
  | [] => []
  | a :: l => insertSorted le a (sortByJS le l)

/-- `dayjs(person.birthday).year(today.year())` — the value the component
calls `nextBirthday` (CRM.jsx lines 91 and 97-98 and 198).  The statement
`if (nextBirthday.isBefore(today)) { nextBirthday.add(1, 'year') }` that
follows it in the source has no effect: dayjs objects are immutable and
the object returned by `add` is discarded, so the binding keeps the
current-year anchor unconditionally. -/
def nextBirthdayOf (today : CalDT) (birthday : Option String) : Dayjs :=
  match birthday with
  | none => .invalid
  | some s => (dayjs s).setYear today.y

/-- The filter predicate of `getUpcomingBirthdays` (CRM.jsx lines 89-95):
falsy birthdays are rejected, then `nextBirthday.diff(today, 'day') <= 30`
(which is `false` when the diff is `NaN`).  Because the re-anchoring `add`
is a no-op (see `nextBirthdayOf`), the diff may be negative and still pass. -/
def keepPerson (today : CalDT) (p : Person) : Bool :=
  match p.birthday with
  | none => false
  | some s =>
    if s = "" then false
    else
      match Dayjs.diffDays (nextBirthdayOf today p.birthday) (.valid today) with
      | some n => n ≤ 30
      | none => false

/-- The sort comparator of `getUpcomingBirthdays` (CRM.jsx lines 96-102):
`aNext.diff(bNext)` in raw milliseconds, with the same ineffective
re-anchoring statements.  The `0` fallback for an invalid side is
unreachable behind the filter (every surviving birthday parses). -/
def comparePeople (today : CalDT) (a b : Person) : Int :=
  match nextBirthdayOf today a.birthday, nextBirthdayOf today b.birthday with
  | .valid x, .valid y => tsOf x - tsOf y
  | _, _ => 0

/-- `getUpcomingBirthdays` (CRM.jsx lines 87-104): filter the people list
by `keepPerson`, then stably sort by the comparator. -/
def getUpcomingBirthdays (today : CalDT) (people : List Person) : List Person :=
  sortByJS (fun a b => comparePeople today a b ≤ 0) (people.filter (keepPerson today))

/-- `daysUntil` as recomputed for each card of the upcoming-birthdays panel
(CRM.jsx lines 196-201): same anchored date, same ineffective re-anchor,
`diff(today, 'day')`. -/
def cardDaysUntil (today : CalDT) (birthday : Option String) : Option Int :=
  Dayjs.diffDays (nextBirthdayOf today birthday) (.valid today)

/-- The card label (CRM.jsx line 207):
`daysUntil === 0 ? 'Today!' : daysUntil + ' days'`. -/
def cardLabel (daysUntil : Int) : String :=
  if daysUntil = 0 then "Today!" else toString daysUntil ++ " days"

/-- Outcome of `Person.list()` as observed by `loadPeople`: a resolved
response carrying a `success` flag and a data list, or a thrown error. -/
inductive ListOutcome where
  | ok : Bool → List Person → ListOutcome
  | thrown : ListOutcome
deriving DecidableEq, Repr

/-- `loadPeople` (CRM.jsx lines 20-31) restricted to the `people` state it
updates: `setPeople(response.data)` only when the resolved response has
`success` set; a falsy flag or a thrown error leaves the list untouched
(the catch block only shows a message). -/
def loadPeople (outcome : ListOutcome) (people : List Person) : List Person :=
  match outcome with
  | .ok true data => data
  | .ok false _ => people
  | .thrown => people

/-- Modelled from the spec (section 4.1 next-occurrence rule), not from the
source: "take the contact's birth month and day, apply the current year.
If that date is strictly before today, re-anchor to next year instead."
The Feb-29 policy the spec leaves open is resolved as the clamp the spec
itself offers ("e.g. clamp to Feb 28"). -/
def specNextOccurrence (today : CalDT) (birth : CalDT) : CalDT :=
  let cur : CalDT := ⟨today.y, birth.m, min birth.d (daysInMonth today.y birth.m), 0⟩
  if cur.m < today.m ∨ (cur.m = today.m ∧ cur.d < today.d) then
    ⟨today.y + 1, birth.m, min birth.d (daysInMonth (today.y + 1) birth.m), 0⟩
  else cur

/-- Modelled from the spec: "next-occurrence-of-birth-date minus
current-date, in days" — whole calendar days from today's date to the next
occurrence. -/
def specDaysUntil (today : CalDT) (birth : CalDT) : Int :=
  let nxt := specNextOccurrence today birth
  daysFromCivil nxt.y nxt.m nxt.d - daysFromCivil today.y today.m today.d

/-- Modelled from the spec (section 4.1 age display): "age = difference in
whole years between today and birth date" — the number of birthday
anniversaries reached, a Feb-29 anniversary being realized on Feb 28 of
non-leap years (the clamp policy, as in `specNextOccurrence`). -/
def specAge (today : CalDT) (birth : CalDT) : Int :=
  let bdr := min birth.d (daysInMonth today.y birth.m)
  today.y - birth.y -
    (if today.m < birth.m ∨ (today.m = birth.m ∧ today.d < bdr) then 1 else 0)

/-! ### Calendar arithmetic lemmas -/

theorem daysInMonth_pos (y : Int) (m : Nat) (h1 : 1 ≤ m) (h2 : m ≤ 12) :
    1 ≤ daysInMonth y m := by
  interval_cases m <;> simp [daysInMonth] <;> split <;> omega

theorem daysInMonth_le (y : Int) (m : Nat) (h1 : 1 ≤ m) (h2 : m ≤ 12) :
    daysInMonth y m ≤ 31 := by
  interval_cases m <;> simp [daysInMonth] <;> split <;> omega

/-- `daysFromCivil` is linear in the day-of-month. -/
theorem daysFromCivil_day (y : Int) (m d : Nat) :
    daysFromCivil y m d = daysFromCivil y m 1 + (d : Int) - 1 := by
  unfold daysFromCivil
  omega

/-- The first of the month after `(y, m)` is `daysInMonth y m` days after
the first of `(y, m)`. -/
theorem daysFromCivil_next_month (y : Int) (m : Nat) (h1 : 1 ≤ m) (h2 : m ≤ 12) :
    daysFromCivil (nextMonthOf y m).1 (nextMonthOf y m).2 1
      = daysFromCivil y m 1 + (daysInMonth y m : Int) := by
  interval_cases m <;>
    simp only [nextMonthOf, daysFromCivil, daysInMonth, monthDoy, yearTerm, isLeapYear] <;>
    norm_num <;>
    omega

/-! ### Stable sort lemmas -/

theorem mem_insertSorted (le : α → α → Bool) (a x : α) (l : List α) :
    x ∈ insertSorted le a l ↔ x = a ∨ x ∈ l := by
  induction l with
  | nil => simp [insertSorted]
  | cons b t ih =>
    by_cases h : le a b = true <;> simp [insertSorted, h, ih] <;> tauto

theorem mem_sortByJS (le : α → α → Bool) (x : α) (l : List α) :
    x ∈ sortByJS le l ↔ x ∈ l := by
  induction l with
  | nil => simp [sortByJS]
  | cons a t ih => simp [sortByJS, mem_insertSorted, ih]

theorem insertSorted_map (f : α → β) (le : β → β → Bool) (le' : α → α → Bool)
    (hle : ∀ a b, le (f a) (f b) = le' a b) (a : α) (l : List α) :
    insertSorted le (f a) (l.map f) = (insertSorted le' a l).map f := by
  induction l with
  | nil => simp [insertSorted]
  | cons b t ih =>
    by_cases h : le' a b = true <;>
      simp [insertSorted, hle, h, ih]

theorem sortByJS_map (f : α → β) (le : β → β → Bool) (le' : α → α → Bool)
    (hle : ∀ a b, le (f a) (f b) = le' a b) (l : List α) :
    sortByJS le (l.map f) = (sortByJS le' l).map f := by
  induction l with
  | nil => simp [sortByJS]
  | cons a t ih => simp [sortByJS, ih, insertSorted_map f le le' hle]

/-! ### `addMonths` at exact month targets -/

theorem addMonths_exact (x : CalDT) (ty : Int) (tm : Nat) (h1 : 1 ≤ tm) (h2 : tm ≤ 12) :
    addMonths x ((12 * ty + (tm : Int)) - (12 * x.y + (x.m : Int)))
      = ⟨ty, tm, min x.d (daysInMonth ty tm), x.ms⟩ := by
  simp only [addMonths]
  have ht : 12 * x.y + ((x.m : Int) - 1) + ((12 * ty + (tm : Int)) - (12 * x.y + (x.m : Int)))
      = 12 * ty + (tm : Int) - 1 := by ring
  rw [ht]
  have hy : (12 * ty + (tm : Int) - 1) / 12 = ty := by omega
  have hm : ((12 * ty + (tm : Int) - 1) % 12).toNat + 1 = tm := by omega
  rw [hy, hm]

theorem addMonths_exact_prev (x : CalDT) (ty : Int) (tm : Nat) (h1 : 1 ≤ tm) (h2 : tm ≤ 12) :
    addMonths x ((12 * ty + (tm : Int)) - (12 * x.y + (x.m : Int)) - 1)
      = ⟨(prevMonthOf ty tm).1, (prevMonthOf ty tm).2,
          min x.d (daysInMonth (prevMonthOf ty tm).1 (prevMonthOf ty tm).2), x.ms⟩ := by
  by_cases hm1 : tm = 1
  · subst hm1
    have h := addMonths_exact x (ty - 1) 12 (by omega) (by omega)
    have harg : (12 * (ty - 1) + ((12 : Nat) : Int)) - (12 * x.y + (x.m : Int))
        = (12 * ty + ((1 : Nat) : Int)) - (12 * x.y + (x.m : Int)) - 1 := by
      push_cast; ring
    rw [harg] at h
    rw [h]
    simp [prevMonthOf]
  · have h := addMonths_exact x ty (tm - 1) (by omega) (by omega)
    have harg : (12 * ty + ((tm - 1 : Nat) : Int)) - (12 * x.y + (x.m : Int))
        = (12 * ty + (tm : Int)) - (12 * x.y + (x.m : Int)) - 1 := by
      have : ((tm - 1 : Nat) : Int) = (tm : Int) - 1 := by omega
      rw [this]; ring
    rw [harg] at h
    rw [h]
    simp [prevMonthOf, hm1]

theorem addMonths_exact_next (x : CalDT) (ty : Int) (tm : Nat) (h1 : 1 ≤ tm) (h2 : tm ≤ 12) :
    addMonths x ((12 * ty + (tm : Int)) - (12 * x.y + (x.m : Int)) + 1)
      = ⟨(nextMonthOf ty tm).1, (nextMonthOf ty tm).2,
          min x.d (daysInMonth (nextMonthOf ty tm).1 (nextMonthOf ty tm).2), x.ms⟩ := by
  by_cases hm12 : tm = 12
  · subst hm12
    have h := addMonths_exact x (ty + 1) 1 (by omega) (by omega)
    have harg : (12 * (ty + 1) + ((1 : Nat) : Int)) - (12 * x.y + (x.m : Int))
        = (12 * ty + ((12 : Nat) : Int)) - (12 * x.y + (x.m : Int)) + 1 := by
      push_cast; ring
    rw [harg] at h
    rw [h]
    simp [nextMonthOf]
  · have h := addMonths_exact x ty (tm + 1) (by omega) (by omega)
    have harg : (12 * ty + ((tm + 1 : Nat) : Int)) - (12 * x.y + (x.m : Int))
        = (12 * ty + (tm : Int)) - (12 * x.y + (x.m : Int)) + 1 := by
      push_cast; ring
    rw [harg] at h
    rw [h]
    simp [nextMonthOf, hm12]

/-! ### The parser only produces real calendar dates (at midnight) -/

theorem dayRoll_valid {bd : CalDT} :
    ∀ (fuel : Nat) (y : Int) (m : Nat) (dOff : Int), 1 ≤ m → m ≤ 12 →
    dayRoll fuel y m dOff = .valid bd → bd.Valid ∧ bd.ms = 0 := by
  intro fuel
  induction fuel with
  | zero => intro y m dOff _ _ h; simp [dayRoll] at h
  | succ n ih =>
    intro y m dOff h1 h2 h
    unfold dayRoll at h
    by_cases hneg : dOff < 0
    · simp only [hneg, if_true] at h
      have hpm : 1 ≤ (prevMonthOf y m).2 ∧ (prevMonthOf y m).2 ≤ 12 := by
        unfold prevMonthOf; split <;> omega
      have hdim := daysInMonth_pos (prevMonthOf y m).1 (prevMonthOf y m).2 hpm.1 hpm.2
      injection h with h2
      subst h2
      refine ⟨?_, rfl⟩
      simp only [CalDT.Valid]
      refine ⟨hpm.1, hpm.2, ?_, ?_, by norm_num⟩ <;> omega
    · simp only [hneg, if_false] at h
      by_cases hin : dOff < (daysInMonth y m : Int)
      · simp only [hin, if_true] at h
        injection h with h2
        subst h2
        refine ⟨?_, rfl⟩
        simp only [CalDT.Valid]
        refine ⟨h1, h2, ?_, ?_, by norm_num⟩ <;> omega
      · simp only [hin, if_false] at h
        have hnm : 1 ≤ (nextMonthOf y m).2 ∧ (nextMonthOf y m).2 ≤ 12 := by
          unfold nextMonthOf; split <;> omega
        exact ih (nextMonthOf y m).1 (nextMonthOf y m).2 _ hnm.1 hnm.2 h

theorem jsMakeDate_valid {yRaw : Nat} {m0 : Int} {dRaw : Nat} {bd : CalDT}
    (h : jsMakeDate yRaw m0 dRaw = .valid bd) : bd.Valid ∧ bd.ms = 0 := by
  unfold jsMakeDate at h
  exact dayRoll_valid 5 _ _ _ (by omega) (by omega) h

theorem dayjs_valid {s : String} {bd : CalDT} (h : dayjs s = .valid bd) :
    bd.Valid ∧ bd.ms = 0 := by
  unfold dayjs at h
  repeat' split at h
  all_goals first
    | exact jsMakeDate_valid h
    | simp at h

/-! ### Timestamp gaps between same or adjacent months -/

theorem daysFromCivil_prev_month (y : Int) (m : Nat) (h1 : 1 ≤ m) (h2 : m ≤ 12) :
    daysFromCivil y m 1
      = daysFromCivil (prevMonthOf y m).1 (prevMonthOf y m).2 1
        + (daysInMonth (prevMonthOf y m).1 (prevMonthOf y m).2 : Int) := by
  have hpm : 1 ≤ (prevMonthOf y m).2 ∧ (prevMonthOf y m).2 ≤ 12 := by
    unfold prevMonthOf; split <;> omega
  have h := daysFromCivil_next_month (prevMonthOf y m).1 (prevMonthOf y m).2 hpm.1 hpm.2
  have hnp : nextMonthOf (prevMonthOf y m).1 (prevMonthOf y m).2 = (y, m) := by
    unfold prevMonthOf nextMonthOf
    by_cases hm : m = 1
    · simp [hm]
    · have hne : ¬ (m - 1 = 12) := by omega
      simp [hm, hne]
      omega
  rw [hnp] at h
  exact h

theorem tsOf_sub_same_month (y : Int) (m d1 d2 ms1 ms2 : Nat) :
    tsOf ⟨y, m, d1, ms1⟩ - tsOf ⟨y, m, d2, ms2⟩
      = 86400000 * ((d1 : Int) - (d2 : Int)) + ((ms1 : Int) - (ms2 : Int)) := by
  unfold tsOf
  rw [daysFromCivil_day y m d1, daysFromCivil_day y m d2]
  ring

theorem tsOf_sub_prev_month (y : Int) (m : Nat) (h1 : 1 ≤ m) (h2 : m ≤ 12)
    (d1 d2 ms1 ms2 : Nat) :
    tsOf ⟨y, m, d1, ms1⟩
        - tsOf ⟨(prevMonthOf y m).1, (prevMonthOf y m).2, d2, ms2⟩
      = 86400000 * ((daysInMonth (prevMonthOf y m).1 (prevMonthOf y m).2 : Int)
          + (d1 : Int) - (d2 : Int)) + ((ms1 : Int) - (ms2 : Int)) := by
  unfold tsOf
  rw [daysFromCivil_day y m d1,
    daysFromCivil_day (prevMonthOf y m).1 (prevMonthOf y m).2 d2,
    daysFromCivil_prev_month y m h1 h2]
  ring

theorem tsOf_sub_next_month (y : Int) (m : Nat) (h1 : 1 ≤ m) (h2 : m ≤ 12)
    (d1 d2 ms1 ms2 : Nat) :
    tsOf ⟨(nextMonthOf y m).1, (nextMonthOf y m).2, d2, ms2⟩
        - tsOf ⟨y, m, d1, ms1⟩
      = 86400000 * ((daysInMonth y m : Int) + (d2 : Int) - (d1 : Int))
          + ((ms2 : Int) - (ms1 : Int)) := by
  unfold tsOf
  rw [daysFromCivil_day y m d1,
    daysFromCivil_day (nextMonthOf y m).1 (nextMonthOf y m).2 d2,
    daysFromCivil_next_month y m h1 h2]
  ring

/-! ### Truncating division characterized by interval bounds -/

theorem absFloorDiv_eq (num den k : Int) (hden : 0 < den) (hk : 0 ≤ k)
    (h1 : k * den ≤ num) (h2 : num < (k + 1) * den) : absFloorDiv num den = k := by
  have hn : 0 ≤ num := le_trans (mul_nonneg hk hden.le) h1
  unfold absFloorDiv
  rw [if_pos hn]
  have ha : k ≤ num / den := by rw [Int.le_ediv_iff_mul_le hden]; exact h1
  have hb : num / den < k + 1 := by rw [Int.ediv_lt_iff_lt_mul hden]; exact h2
  omega

/-- The exact month count `12k + E + g/den` with `|g| < den` and
`0 ≤ E ≤ 12` (sign conditions at the edges) lies in `[12k, 12k + 12)`. -/
theorem intervalLower (den E k g num : Int) (hden : 0 < den)
    (hnum : num = (12 * k + E) * den + g) (hE1 : 0 ≤ E) (hE2 : E ≤ 12)
    (hgl : -den < g) (hgu : g < den) (hE0 : E = 0 → 0 ≤ g)
    (hE12 : E = 12 → g < 0) : 12 * k * den ≤ num := by
  rcases eq_or_lt_of_le hE1 with hE | hE
  · have hg := hE0 hE.symm
    rw [← hE] at hnum
    linarith
  · have h1 : 0 ≤ (E - 1) * den := mul_nonneg (by omega) hden.le
    nlinarith

/-- Companion upper bound to `intervalLower`. -/
theorem intervalUpper (den E k g num : Int) (hden : 0 < den)
    (hnum : num = (12 * k + E) * den + g) (hE1 : 0 ≤ E) (hE2 : E ≤ 12)
    (hgl : -den < g) (hgu : g < den) (hE0 : E = 0 → 0 ≤ g)
    (hE12 : E = 12 → g < 0) : num < 12 * (k + 1) * den := by
  rcases eq_or_lt_of_le hE2 with hE | hE
  · have hg := hE12 hE
    rw [hE] at hnum
    linarith
  · have h2 : 0 ≤ (11 - E) * den := mul_nonneg (by omega) hden.le
    nlinarith

/-- The dayjs month difference `monthsRat today birth`, as an exact
rational, lies in `[12k, 12k + 12)` months where `k` is the spec's
whole-year age; its denominator is positive.  Holds for every real birth
date (at midnight) and every real `today` instant. -/
theorem monthsRat_spec (yt : Int) (mt dt st : Nat) (yb : Int) (mb db : Nat)
    (htv : (⟨yt, mt, dt, st⟩ : CalDT).Valid) (hbv : (⟨yb, mb, db, 0⟩ : CalDT).Valid) :
    0 < (monthsRat ⟨yt, mt, dt, st⟩ ⟨yb, mb, db, 0⟩).2 ∧
      12 * specAge ⟨yt, mt, dt, st⟩ ⟨yb, mb, db, 0⟩
          * (monthsRat ⟨yt, mt, dt, st⟩ ⟨yb, mb, db, 0⟩).2
        ≤ (monthsRat ⟨yt, mt, dt, st⟩ ⟨yb, mb, db, 0⟩).1 ∧
      (monthsRat ⟨yt, mt, dt, st⟩ ⟨yb, mb, db, 0⟩).1
        < 12 * (specAge ⟨yt, mt, dt, st⟩ ⟨yb, mb, db, 0⟩ + 1)
            * (monthsRat ⟨yt, mt, dt, st⟩ ⟨yb, mb, db, 0⟩).2 := by
  simp only [CalDT.Valid] at htv hbv
  obtain ⟨htm1, htm2, htd1, htd2, htms⟩ := htv
  obtain ⟨hbm1, hbm2, hbd1, hbd2, -⟩ := hbv
  have hd_t := daysInMonth_pos yt mt htm1 htm2
  have hd_b := daysInMonth_pos yb mb hbm1 hbm2
  have hpm_t : 1 ≤ (prevMonthOf yt mt).2 ∧ (prevMonthOf yt mt).2 ≤ 12 := by
    unfold prevMonthOf; split <;> omega
  have hd_pt := daysInMonth_pos (prevMonthOf yt mt).1 (prevMonthOf yt mt).2 hpm_t.1 hpm_t.2
  have hnm_t : 1 ≤ (nextMonthOf yt mt).2 ∧ (nextMonthOf yt mt).2 ≤ 12 := by
    unfold nextMonthOf; split <;> omega
  have hd_nt := daysInMonth_pos (nextMonthOf yt mt).1 (nextMonthOf yt mt).2 hnm_t.1 hnm_t.2
  have hpm_b : 1 ≤ (prevMonthOf yb mb).2 ∧ (prevMonthOf yb mb).2 ≤ 12 := by
    unfold prevMonthOf; split <;> omega
  have hd_pb := daysInMonth_pos (prevMonthOf yb mb).1 (prevMonthOf yb mb).2 hpm_b.1 hpm_b.2
  have hnm_b : 1 ≤ (nextMonthOf yb mb).2 ∧ (nextMonthOf yb mb).2 ≤ 12 := by
    unfold nextMonthOf; split <;> omega
  have hd_nb := daysInMonth_pos (nextMonthOf yb mb).1 (nextMonthOf yb mb).2 hnm_b.1 hnm_b.2
  simp only [monthsRat]
  by_cases hbr : dt < db
  · -- dayjs swaps the arguments: monthsRat = -(monthDiffCore birth today)
    rw [if_pos hbr]
    simp only [monthDiffCore]
    have haM : addMonths ⟨yb, mb, db, 0⟩ ((12 * yt + (mt : Int)) - (12 * yb + (mb : Int)))
        = ⟨yt, mt, min db (daysInMonth yt mt), 0⟩ :=
      addMonths_exact ⟨yb, mb, db, 0⟩ yt mt htm1 htm2
    have haMp : addMonths ⟨yb, mb, db, 0⟩
          ((12 * yt + (mt : Int)) - (12 * yb + (mb : Int)) - 1)
        = ⟨(prevMonthOf yt mt).1, (prevMonthOf yt mt).2,
            min db (daysInMonth (prevMonthOf yt mt).1 (prevMonthOf yt mt).2), 0⟩ :=
      addMonths_exact_prev ⟨yb, mb, db, 0⟩ yt mt htm1 htm2
    have haMn : addMonths ⟨yb, mb, db, 0⟩
          ((12 * yt + (mt : Int)) - (12 * yb + (mb : Int)) + 1)
        = ⟨(nextMonthOf yt mt).1, (nextMonthOf yt mt).2,
            min db (daysInMonth (nextMonthOf yt mt).1 (nextMonthOf yt mt).2), 0⟩ :=
      addMonths_exact_next ⟨yb, mb, db, 0⟩ yt mt htm1 htm2
    rw [haM, haMp, haMn]
    rw [tsOf_sub_same_month yt mt dt (min db (daysInMonth yt mt)) st 0,
      tsOf_sub_prev_month yt mt htm1 htm2 (min db (daysInMonth yt mt))
        (min db (daysInMonth (prevMonthOf yt mt).1 (prevMonthOf yt mt).2)) 0 0,
      tsOf_sub_next_month yt mt htm1 htm2 (min db (daysInMonth yt mt))
        (min db (daysInMonth (nextMonthOf yt mt).1 (nextMonthOf yt mt).2)) 0 0]
    split
    · -- today is before the current-year anchor within the month
      rcases lt_trichotomy mt mb with h3 | h3 | h3
      · have hk : specAge ⟨yt, mt, dt, st⟩ ⟨yb, mb, db, 0⟩ = yt - yb - 1 := by
          simp only [specAge]
          rw [if_pos (by omega)]
        rw [hk]
        exact ⟨by omega,
          intervalLower _ (12 + (mt : Int) - (mb : Int)) _
            (86400000 * ((dt : Int) - (min db (daysInMonth yt mt) : Int)) + (st : Int)) _
            (by omega) (by push_cast; ring) (by omega) (by omega) (by omega) (by omega)
            (by intro h; omega) (by intro h; omega),
          intervalUpper _ (12 + (mt : Int) - (mb : Int)) _
            (86400000 * ((dt : Int) - (min db (daysInMonth yt mt) : Int)) + (st : Int)) _
            (by omega) (by push_cast; ring) (by omega) (by omega) (by omega) (by omega)
            (by intro h; omega) (by intro h; omega)⟩
      · subst h3
        have hk : specAge ⟨yt, mt, dt, st⟩ ⟨yb, mt, db, 0⟩ = yt - yb - 1 := by
          simp only [specAge]
          rw [if_pos (by simp only [true_and]; omega)]
        rw [hk]
        exact ⟨by omega,
          intervalLower _ 12 _
            (86400000 * ((dt : Int) - (min db (daysInMonth yt mt) : Int)) + (st : Int)) _
            (by omega) (by push_cast; ring) (by omega) (by omega) (by omega) (by omega)
            (by intro h; omega) (by intro h; omega),
          intervalUpper _ 12 _
            (86400000 * ((dt : Int) - (min db (daysInMonth yt mt) : Int)) + (st : Int)) _
            (by omega) (by push_cast; ring) (by omega) (by omega) (by omega) (by omega)
            (by intro h; omega) (by intro h; omega)⟩
      · have hk : specAge ⟨yt, mt, dt, st⟩ ⟨yb, mb, db, 0⟩ = yt - yb := by
          simp only [specAge]
          rw [if_neg (by omega)]
          ring
        rw [hk]
        exact ⟨by omega,
          intervalLower _ ((mt : Int) - (mb : Int)) _
            (86400000 * ((dt : Int) - (min db (daysInMonth yt mt) : Int)) + (st : Int)) _
            (by omega) (by push_cast; ring) (by omega) (by omega) (by omega) (by omega)
            (by intro h; omega) (by intro h; omega),
          intervalUpper _ ((mt : Int) - (mb : Int)) _
            (86400000 * ((dt : Int) - (min db (daysInMonth yt mt) : Int)) + (st : Int)) _
            (by omega) (by push_cast; ring) (by omega) (by omega) (by omega) (by omega)
            (by intro h; omega) (by intro h; omega)⟩
    · -- today is on or after the current-year anchor within the month
      rcases lt_trichotomy mt mb with h3 | h3 | h3
      · have hk : specAge ⟨yt, mt, dt, st⟩ ⟨yb, mb, db, 0⟩ = yt - yb - 1 := by
          simp only [specAge]
          rw [if_pos (by omega)]
        rw [hk]
        exact ⟨by omega,
          intervalLower _ (12 + (mt : Int) - (mb : Int)) _
            (86400000 * ((dt : Int) - (min db (daysInMonth yt mt) : Int)) + (st : Int)) _
            (by omega) (by push_cast; ring) (by omega) (by omega) (by omega) (by omega)
            (by intro h; omega) (by intro h; omega),
          intervalUpper _ (12 + (mt : Int) - (mb : Int)) _
            (86400000 * ((dt : Int) - (min db (daysInMonth yt mt) : Int)) + (st : Int)) _
            (by omega) (by push_cast; ring) (by omega) (by omega) (by omega) (by omega)
            (by intro h; omega) (by intro h; omega)⟩
      · subst h3
        have hk : specAge ⟨yt, mt, dt, st⟩ ⟨yb, mt, db, 0⟩ = yt - yb := by
          simp only [specAge]
          rw [if_neg (by simp only [true_and]; omega)]
          ring
        rw [hk]
        exact ⟨by omega,
          intervalLower _ 0 _
            (86400000 * ((dt : Int) - (min db (daysInMonth yt mt) : Int)) + (st : Int)) _
            (by omega) (by push_cast; ring) (by omega) (by omega) (by omega) (by omega)
            (by intro h; omega) (by intro h; omega),
          intervalUpper _ 0 _
            (86400000 * ((dt : Int) - (min db (daysInMonth yt mt) : Int)) + (st : Int)) _
            (by omega) (by push_cast; ring) (by omega) (by omega) (by omega) (by omega)
            (by intro h; omega) (by intro h; omega)⟩
      · have hk : specAge ⟨yt, mt, dt, st⟩ ⟨yb, mb, db, 0⟩ = yt - yb := by
          simp only [specAge]
          rw [if_neg (by omega)]
          ring
        rw [hk]
        exact ⟨by omega,
          intervalLower _ ((mt : Int) - (mb : Int)) _
            (86400000 * ((dt : Int) - (min db (daysInMonth yt mt) : Int)) + (st : Int)) _
            (by omega) (by push_cast; ring) (by omega) (by omega) (by omega) (by omega)
            (by intro h; omega) (by intro h; omega),
          intervalUpper _ ((mt : Int) - (mb : Int)) _
            (86400000 * ((dt : Int) - (min db (daysInMonth yt mt) : Int)) + (st : Int)) _
            (by omega) (by push_cast; ring) (by omega) (by omega) (by omega) (by omega)
            (by intro h; omega) (by intro h; omega)⟩
  · -- no swap: monthsRat = monthDiffCore today birth
    rw [if_neg hbr]
    simp only [monthDiffCore]
    have haM : addMonths ⟨yt, mt, dt, st⟩ ((12 * yb + (mb : Int)) - (12 * yt + (mt : Int)))
        = ⟨yb, mb, min dt (daysInMonth yb mb), st⟩ :=
      addMonths_exact ⟨yt, mt, dt, st⟩ yb mb hbm1 hbm2
    have haMp : addMonths ⟨yt, mt, dt, st⟩
          ((12 * yb + (mb : Int)) - (12 * yt + (mt : Int)) - 1)
        = ⟨(prevMonthOf yb mb).1, (prevMonthOf yb mb).2,
            min dt (daysInMonth (prevMonthOf yb mb).1 (prevMonthOf yb mb).2), st⟩ :=
      addMonths_exact_prev ⟨yt, mt, dt, st⟩ yb mb hbm1 hbm2
    have haMn : addMonths ⟨yt, mt, dt, st⟩
          ((12 * yb + (mb : Int)) - (12 * yt + (mt : Int)) + 1)
        = ⟨(nextMonthOf yb mb).1, (nextMonthOf yb mb).2,
            min dt (daysInMonth (nextMonthOf yb mb).1 (nextMonthOf yb mb).2), st⟩ :=
      addMonths_exact_next ⟨yt, mt, dt, st⟩ yb mb hbm1 hbm2
    rw [haM, haMp, haMn]
    rw [tsOf_sub_same_month yb mb db (min dt (daysInMonth yb mb)) 0 st,
      tsOf_sub_prev_month yb mb hbm1 hbm2 (min dt (daysInMonth yb mb))
        (min dt (daysInMonth (prevMonthOf yb mb).1 (prevMonthOf yb mb).2)) st st,
      tsOf_sub_next_month yb mb hbm1 hbm2 (min dt (daysInMonth yb mb))
        (min dt (daysInMonth (nextMonthOf yb mb).1 (nextMonthOf yb mb).2)) st st]
    split
    · -- the birth date is before the back-shifted today anchor
      rcases lt_trichotomy mt mb with h3 | h3 | h3
      · have hk : specAge ⟨yt, mt, dt, st⟩ ⟨yb, mb, db, 0⟩ = yt - yb - 1 := by
          simp only [specAge]
          rw [if_pos (by omega)]
        rw [hk]
        exact ⟨by omega,
          intervalLower _ (12 + (mt : Int) - (mb : Int)) _
            (86400000 * ((min dt (daysInMonth yb mb) : Int) - (db : Int)) + (st : Int)) _
            (by omega) (by push_cast; ring) (by omega) (by omega) (by omega) (by omega)
            (by intro h; omega) (by intro h; omega),
          intervalUpper _ (12 + (mt : Int) - (mb : Int)) _
            (86400000 * ((min dt (daysInMonth yb mb) : Int) - (db : Int)) + (st : Int)) _
            (by omega) (by push_cast; ring) (by omega) (by omega) (by omega) (by omega)
            (by intro h; omega) (by intro h; omega)⟩
      · subst h3
        have hk : specAge ⟨yt, mt, dt, st⟩ ⟨yb, mt, db, 0⟩ = yt - yb := by
          simp only [specAge]
          rw [if_neg (by simp only [true_and]; omega)]
          ring
        rw [hk]
        exact ⟨by omega,
          intervalLower _ 0 _
            (86400000 * ((min dt (daysInMonth yb mt) : Int) - (db : Int)) + (st : Int)) _
            (by omega) (by push_cast; ring) (by omega) (by omega) (by omega) (by omega)
            (by intro h; omega) (by intro h; omega),
          intervalUpper _ 0 _
            (86400000 * ((min dt (daysInMonth yb mt) : Int) - (db : Int)) + (st : Int)) _
            (by omega) (by push_cast; ring) (by omega) (by omega) (by omega) (by omega)
            (by intro h; omega) (by intro h; omega)⟩
      · have hk : specAge ⟨yt, mt, dt, st⟩ ⟨yb, mb, db, 0⟩ = yt - yb := by
          simp only [specAge]
          rw [if_neg (by omega)]
          ring
        rw [hk]
        exact ⟨by omega,
          intervalLower _ ((mt : Int) - (mb : Int)) _
            (86400000 * ((min dt (daysInMonth yb mb) : Int) - (db : Int)) + (st : Int)) _
            (by omega) (by push_cast; ring) (by omega) (by omega) (by omega) (by omega)
            (by intro h; omega) (by intro h; omega),
          intervalUpper _ ((mt : Int) - (mb : Int)) _
            (86400000 * ((min dt (daysInMonth yb mb) : Int) - (db : Int)) + (st : Int)) _
            (by omega) (by push_cast; ring) (by omega) (by omega) (by omega) (by omega)
            (by intro h; omega) (by intro h; omega)⟩
    · -- the birth date is on or after the back-shifted today anchor
      rcases lt_trichotomy mt mb with h3 | h3 | h3
      · have hk : specAge ⟨yt, mt, dt, st⟩ ⟨yb, mb, db, 0⟩ = yt - yb - 1 := by
          simp only [specAge]
          rw [if_pos (by omega)]
        rw [hk]
        exact ⟨by omega,
          intervalLower _ (12 + (mt : Int) - (mb : Int)) _
            (86400000 * ((min dt (daysInMonth yb mb) : Int) - (db : Int)) + (st : Int)) _
            (by omega) (by push_cast; ring) (by omega) (by omega) (by omega) (by omega)
            (by intro h; omega) (by intro h; omega),
          intervalUpper _ (12 + (mt : Int) - (mb : Int)) _
            (86400000 * ((min dt (daysInMonth yb mb) : Int) - (db : Int)) + (st : Int)) _
            (by omega) (by push_cast; ring) (by omega) (by omega) (by omega) (by omega)
            (by intro h; omega) (by intro h; omega)⟩
      · subst h3
        have hk : specAge ⟨yt, mt, dt, st⟩ ⟨yb, mt, db, 0⟩ = yt - yb := by
          simp only [specAge]
          rw [if_neg (by simp only [true_and]; omega)]
          ring
        rw [hk]
        exact ⟨by omega,
          intervalLower _ 0 _
            (86400000 * ((min dt (daysInMonth yb mt) : Int) - (db : Int)) + (st : Int)) _
            (by omega) (by push_cast; ring) (by omega) (by omega) (by omega) (by omega)
            (by intro h; omega) (by intro h; omega),
          intervalUpper _ 0 _
            (86400000 * ((min dt (daysInMonth yb mt) : Int) - (db : Int)) + (st : Int)) _
            (by omega) (by push_cast; ring) (by omega) (by omega) (by omega) (by omega)
            (by intro h; omega) (by intro h; omega)⟩
      · have hk : specAge ⟨yt, mt, dt, st⟩ ⟨yb, mb, db, 0⟩ = yt - yb := by
          simp only [specAge]
          rw [if_neg (by omega)]
          ring
        rw [hk]
        exact ⟨by omega,
          intervalLower _ ((mt : Int) - (mb : Int)) _
            (86400000 * ((min dt (daysInMonth yb mb) : Int) - (db : Int)) + (st : Int)) _
            (by omega) (by push_cast; ring) (by omega) (by omega) (by omega) (by omega)
            (by intro h; omega) (by intro h; omega),
          intervalUpper _ ((mt : Int) - (mb : Int)) _
            (86400000 * ((min dt (daysInMonth yb mb) : Int) - (db : Int)) + (st : Int)) _
            (by omega) (by push_cast; ring) (by omega) (by omega) (by omega) (by omega)
            (by intro h; omega) (by intro h; omega)⟩

/-- `getAge` computes exactly the spec's whole-year age for every contact
whose birthday parses and whose birth date is not after today. -/
theorem getAge_eq_specAge (yt : Int) (mt dt st : Nat) (s : String) (bd : CalDT)
    (htv : (⟨yt, mt, dt, st⟩ : CalDT).Valid) (hp : dayjs s = .valid bd)
    (hord : bd.y < yt ∨ (bd.y = yt ∧ (bd.m < mt ∨ (bd.m = mt ∧ bd.d ≤ dt)))) :
    getAge ⟨yt, mt, dt, st⟩ (some s)
      = some (.int (specAge ⟨yt, mt, dt, st⟩ bd)) := by
  obtain ⟨hbv, hbms⟩ := dayjs_valid hp
  obtain ⟨yb, mb, db, sb⟩ := bd
  have hsb : sb = 0 := hbms
  subst hsb
  have hord' : yb < yt ∨ (yb = yt ∧ (mb < mt ∨ (mb = mt ∧ db ≤ dt))) := hord
  have hse : s ≠ "" := by
    intro he
    rw [he] at hp
    have hinv : dayjs "" = Dayjs.invalid := by decide
    rw [hinv] at hp
    exact Dayjs.noConfusion hp
  have hms := monthsRat_spec yt mt dt st yb mb db htv hbv
  have hk0 : 0 ≤ specAge ⟨yt, mt, dt, st⟩ ⟨yb, mb, db, 0⟩ := by
    simp only [specAge]
    split <;> omega
  obtain ⟨hden, hlo, hhi⟩ := hms
  have hval : absFloorDiv (monthsRat ⟨yt, mt, dt, st⟩ ⟨yb, mb, db, 0⟩).1
      (12 * (monthsRat ⟨yt, mt, dt, st⟩ ⟨yb, mb, db, 0⟩).2)
      = specAge ⟨yt, mt, dt, st⟩ ⟨yb, mb, db, 0⟩ :=
    absFloorDiv_eq _ _ _ (by omega) hk0 (by linarith) (by linarith)
  simp only [getAge, if_neg hse, hp]
  rw [hval]

/-- `getUpcomingBirthdays` reads only the `birthday` field of each contact:
it commutes with every map that preserves birthdays.  In particular the
displayed age (a function of the same field computed separately) is not an
input to the filtering or the ordering. -/
theorem getUpcomingBirthdays_map (today : CalDT) (f : Person → Person)
    (hf : ∀ p, (f p).birthday = p.birthday) (ps : List Person) :
    getUpcomingBirthdays today (ps.map f) = (getUpcomingBirthdays today ps).map f := by
  have hkeep : ∀ p, keepPerson today (f p) = keepPerson today p := by
    intro p
    unfold keepPerson nextBirthdayOf
    rw [hf]
  have hcmp : ∀ a b, comparePeople today (f a) (f b) = comparePeople today a b := by
    intro a b
    unfold comparePeople nextBirthdayOf
    rw [hf, hf]
  unfold getUpcomingBirthdays
  rw [List.filter_map]
  have hfc : List.filter (keepPerson today ∘ f) ps = List.filter (keepPerson today) ps :=
    List.filter_congr (fun a _ => hkeep a)
  rw [hfc]
  exact sortByJS_map f _ _ (fun a b => by simp [hcmp]) (ps.filter (keepPerson today))

/-- Membership in the result of `getUpcomingBirthdays` is membership in the
input filtered by `keepPerson`. -/
theorem mem_getUpcomingBirthdays (today : CalDT) (people : List Person) (p : Person) :
    p ∈ getUpcomingBirthdays today people ↔ p ∈ people ∧ keepPerson today p = true := by
  unfold getUpcomingBirthdays
  rw [mem_sortByJS]
  exact List.mem_filter

/-- C1: the claim says the computed next occurrence re-anchors to the
following year whenever the current-year date is strictly before today,
hence is always ≥ today.  The code's `add(1, 'year')` is a discarded
immutable-value call, so at today = 2024-06-01 a contact born 1990-05-20
gets next occurrence 2024-05-20, which is strictly before today; the
spec's next-occurrence rule gives 2025-05-20 (≥ today). -/
theorem claim1_next_occurrence_not_reanchored :
    nextBirthdayOf ⟨2024, 6, 1, 0⟩ (some "1990-05-20") = .valid ⟨2024, 5, 20, 0⟩ ∧
    tsOf ⟨2024, 5, 20, 0⟩ < tsOf ⟨2024, 6, 1, 0⟩ ∧
    specNextOccurrence ⟨2024, 6, 1, 0⟩ ⟨1990, 5, 20, 0⟩ = ⟨2025, 5, 20, 0⟩ ∧
    tsOf ⟨2024, 6, 1, 0⟩ ≤ tsOf ⟨2025, 5, 20, 0⟩ := by
  refine ⟨by decide, by decide, by decide, by decide⟩

/-- C2: the claim says a contact appears iff its days-until-next-occurrence
is in [0, 30], and in particular a contact whose anniversary fell 1 day
before today is excluded.  At today = 2024-06-01 the code includes a
contact born 1990-05-31 (its never-re-anchored anchor is yesterday, diff
-1 ≤ 30), although the true next occurrence 2025-05-31 is 364 days away. -/
theorem claim2_yesterday_anniversary_included :
    getUpcomingBirthdays ⟨2024, 6, 1, 0⟩
        [⟨1, "Bo", "Li", none, none, some "1990-05-31", none⟩]
      = [⟨1, "Bo", "Li", none, none, some "1990-05-31", none⟩] ∧
    dayjs "1990-05-31" = .valid ⟨1990, 5, 31, 0⟩ ∧
    specDaysUntil ⟨2024, 6, 1, 0⟩ ⟨1990, 5, 31, 0⟩ = 364 ∧
    cardDaysUntil ⟨2024, 6, 1, 0⟩ (some "1990-05-31") = some (-1) := by
  refine ⟨by decide, by decide, by decide, by decide⟩

/-- C3: the claim says the result is sorted ascending by
days-until-next-occurrence.  At today = 2024-06-01 the contacts born
1990-05-20, 1990-06-10, 1990-05-25 have true distances 353, 9 and 358
days; the code returns them ordered by current-year month/day —
distances [353, 358, 9] — not ascending (the 9-day contact comes last). -/
theorem claim3_not_sorted_by_days_until :
    getUpcomingBirthdays ⟨2024, 6, 1, 0⟩
        [⟨1, "Ana", "P", none, none, some "1990-05-20", none⟩,
         ⟨2, "Ben", "Q", none, none, some "1990-06-10", none⟩,
         ⟨3, "Cal", "R", none, none, some "1990-05-25", none⟩]
      = [⟨1, "Ana", "P", none, none, some "1990-05-20", none⟩,
         ⟨3, "Cal", "R", none, none, some "1990-05-25", none⟩,
         ⟨2, "Ben", "Q", none, none, some "1990-06-10", none⟩] ∧
    specDaysUntil ⟨2024, 6, 1, 0⟩ ⟨1990, 5, 20, 0⟩ = 353 ∧
    specDaysUntil ⟨2024, 6, 1, 0⟩ ⟨1990, 5, 25, 0⟩ = 358 ∧
    specDaysUntil ⟨2024, 6, 1, 0⟩ ⟨1990, 6, 10, 0⟩ = 9 := by
  refine ⟨by decide, by decide, by decide, by decide⟩

/-- C4: a contact whose birth date field is absent never appears in the
result of `getUpcomingBirthdays`, for any current date and any input
list. -/
theorem claim4_no_birthday_excluded (today : CalDT) (people : List Person)
    (p : Person) (hb : p.birthday = none) :
    p ∉ getUpcomingBirthdays today people := by
  intro h
  obtain ⟨-, hkeep⟩ := (mem_getUpcomingBirthdays today people p).1 h
  unfold keepPerson at hkeep
  rw [hb] at hkeep
  simp at hkeep

theorem claim4_witness :
    (⟨1, "Ann", "B", none, none, none, none⟩ : Person)
      ∉ getUpcomingBirthdays ⟨2024, 6, 1, 0⟩
          [⟨1, "Ann", "B", none, none, none, none⟩] :=
  claim4_no_birthday_excluded ⟨2024, 6, 1, 0⟩ _ _ rfl

/-- C5: a contact whose birth month and day equal today's is computed with
`daysUntil = 0` by the card rendering, its card label is `"Today!"`, and
it is included in the result of `getUpcomingBirthdays`. -/
theorem claim5_today_birthday (today : CalDT) (people : List Person) (p : Person)
    (s : String) (bd : CalDT) (htv : today.Valid) (hmem : p ∈ people)
    (hbs : p.birthday = some s) (hps : dayjs s = .valid bd)
    (hm : bd.m = today.m) (hd : bd.d = today.d) :
    cardDaysUntil today p.birthday = some 0 ∧ cardLabel 0 = "Today!" ∧
      p ∈ getUpcomingBirthdays today people := by
  obtain ⟨hbv, hbms⟩ := dayjs_valid hps
  obtain ⟨ty, tm, td, tms⟩ := today
  obtain ⟨yb, mb, db, sb⟩ := bd
  simp only [CalDT.Valid] at htv
  obtain ⟨ht1, ht2, ht3, ht4, ht5⟩ := htv
  have hm' : mb = tm := hm
  have hd' : db = td := hd
  have hsb : sb = 0 := hbms
  subst hm'
  subst hd'
  subst hsb
  have hse : s ≠ "" := by
    intro he
    rw [he] at hps
    have hinv : dayjs "" = Dayjs.invalid := by decide
    rw [hinv] at hps
    exact Dayjs.noConfusion hps
  have hsy : (dayjs s).setYear ty = Dayjs.valid ⟨ty, mb, db, 0⟩ := by
    rw [hps]
    simp only [Dayjs.setYear]
    have hmin : min db (daysInMonth ty mb) = db := Nat.min_eq_left ht4
    rw [hmin]
  have hs0 : absFloorDiv (tsOf ⟨ty, mb, db, 0⟩ - tsOf ⟨ty, mb, db, tms⟩) 86400000 = 0 := by
    rw [tsOf_sub_same_month ty mb db db 0 tms]
    unfold absFloorDiv
    split <;> omega
  have hdu : cardDaysUntil ⟨ty, mb, db, tms⟩ p.birthday = some 0 := by
    rw [hbs]
    simp only [cardDaysUntil, nextBirthdayOf]
    rw [hsy]
    simp only [Dayjs.diffDays]
    rw [hs0]
  have hkeep : keepPerson ⟨ty, mb, db, tms⟩ p = true := by
    unfold keepPerson
    rw [hbs]
    simp only [nextBirthdayOf]
    rw [if_neg hse, hsy]
    simp only [Dayjs.diffDays]
    rw [hs0]
    decide
  exact ⟨hdu, rfl, (mem_getUpcomingBirthdays _ _ _).2 ⟨hmem, hkeep⟩⟩

theorem claim5_witness :
    cardDaysUntil ⟨2024, 6, 15, 36000000⟩
        (Person.birthday ⟨7, "Tia", "K", none, none, some "1990-06-15", none⟩) = some 0 ∧
    cardLabel 0 = "Today!" ∧
    (⟨7, "Tia", "K", none, none, some "1990-06-15", none⟩ : Person)
      ∈ getUpcomingBirthdays ⟨2024, 6, 15, 36000000⟩
          [⟨7, "Tia", "K", none, none, some "1990-06-15", none⟩] :=
  claim5_today_birthday ⟨2024, 6, 15, 36000000⟩ _ _ "1990-06-15" ⟨1990, 6, 15, 0⟩
    (by decide) (List.mem_singleton.2 rfl) rfl (by decide) rfl rfl

/-- C6: `getUpcomingBirthdays` is a total function with no failure mode:
a contact whose birthday is absent, empty, or unparseable (an Invalid
Date) is silently omitted from the result. -/
theorem claim6_unusable_birthday_omitted (today : CalDT) (people : List Person)
    (p : Person)
    (hbad : p.birthday = none ∨ p.birthday = some ""
      ∨ ∃ s, p.birthday = some s ∧ dayjs s = .invalid) :
    p ∉ getUpcomingBirthdays today people := by
  intro h
  obtain ⟨-, hkeep⟩ := (mem_getUpcomingBirthdays today people p).1 h
  unfold keepPerson at hkeep
  rcases hbad with hb | hb | ⟨s, hb, hinv⟩
  · rw [hb] at hkeep
    simp at hkeep
  · rw [hb] at hkeep
    simp at hkeep
  · rw [hb] at hkeep
    dsimp only at hkeep
    by_cases hse : s = ""
    · rw [if_pos hse] at hkeep
      simp at hkeep
    · rw [if_neg hse] at hkeep
      simp only [nextBirthdayOf] at hkeep
      rw [hinv] at hkeep
      simp [Dayjs.setYear, Dayjs.diffDays] at hkeep

theorem claim6_witness :
    (⟨2, "Rex", "M", none, none, some "not-a-date", none⟩ : Person)
      ∉ getUpcomingBirthdays ⟨2024, 6, 1, 0⟩
          [⟨2, "Rex", "M", none, none, some "not-a-date", none⟩] :=
  claim6_unusable_birthday_omitted ⟨2024, 6, 1, 0⟩ _ _
    (Or.inr (Or.inr ⟨"not-a-date", rfl, by decide⟩))

/-- C7: when `Person.list()` throws or resolves with an unsuccessful
response, `loadPeople` leaves the in-memory people list unchanged. -/
theorem claim7_failed_load_keeps_people (outcome : ListOutcome) (people : List Person)
    (h : ∀ data, outcome ≠ ListOutcome.ok true data) :
    loadPeople outcome people = people := by
  cases outcome with
  | ok s data =>
    cases s with
    | true => exact absurd rfl (h data)
    | false => rfl
  | thrown => rfl

theorem claim7_witness :
    loadPeople ListOutcome.thrown [⟨3, "Kim", "S", none, none, none, none⟩]
      = [⟨3, "Kim", "S", none, none, none, none⟩] :=
  claim7_failed_load_keeps_people ListOutcome.thrown _
    (fun _ h => ListOutcome.noConfusion h)

/-- C8: for every contact with a parseable birth date not after today, the
displayed age computed by `getAge` equals the spec's whole-year difference
between today and the birth date (`specAge`, with a Feb-29 birth realized
on Feb 28 in non-leap years, the clamp policy the spec itself offers); and
the age value is not an input to `getUpcomingBirthdays`: the filter and
the ordering read only each contact's `birthday` field, so the function
commutes with every birthday-preserving transformation of the contacts. -/
theorem claim8_age_is_whole_years_and_unused :
    (∀ (yt : Int) (mt dt st : Nat) (s : String) (bd : CalDT),
      (⟨yt, mt, dt, st⟩ : CalDT).Valid → dayjs s = .valid bd →
      (bd.y < yt ∨ (bd.y = yt ∧ (bd.m < mt ∨ (bd.m = mt ∧ bd.d ≤ dt)))) →
      getAge ⟨yt, mt, dt, st⟩ (some s)
        = some (.int (specAge ⟨yt, mt, dt, st⟩ bd))) ∧
    (∀ (today : CalDT) (f : Person → Person),
      (∀ p, (f p).birthday = p.birthday) →
      ∀ ps, getUpcomingBirthdays today (ps.map f)
        = (getUpcomingBirthdays today ps).map f) :=
  ⟨fun yt mt dt st s bd htv hps hord => getAge_eq_specAge yt mt dt st s bd htv hps hord,
   fun today f hf ps => getUpcomingBirthdays_map today f hf ps⟩

theorem claim8_witness :
    getAge ⟨2024, 6, 1, 0⟩ (some "2000-06-15")
        = some (.int (specAge ⟨2024, 6, 1, 0⟩ ⟨2000, 6, 15, 0⟩)) ∧
    getUpcomingBirthdays ⟨2024, 6, 1, 0⟩
        ([⟨4, "Joy", "T", none, none, some "2000-06-15", none⟩].map id)
      = (getUpcomingBirthdays ⟨2024, 6, 1, 0⟩
          [⟨4, "Joy", "T", none, none, some "2000-06-15", none⟩]).map id :=
  ⟨claim8_age_is_whole_years_and_unused.1 2024 6 1 0 "2000-06-15" ⟨2000, 6, 15, 0⟩
      (by decide) (by decide) (by decide),
   claim8_age_is_whole_years_and_unused.2 ⟨2024, 6, 1, 0⟩ id (fun _ => rfl) _⟩

/-- C9: every contact returned by `getUpcomingBirthdays` is an element of
the input list (the function only filters and reorders), and every
returned contact has a non-empty birthday field. -/
theorem claim9_result_from_input_with_birthday (today : CalDT)
    (people : List Person) (p : Person)
    (h : p ∈ getUpcomingBirthdays today people) :
    p ∈ people ∧ ∃ s, p.birthday = some s ∧ s ≠ "" := by
  obtain ⟨hmem, hkeep⟩ := (mem_getUpcomingBirthdays today people p).1 h
  refine ⟨hmem, ?_⟩
  unfold keepPerson at hkeep
  cases hb : p.birthday with
  | none =>
    rw [hb] at hkeep
    simp at hkeep
  | some s =>
    rw [hb] at hkeep
    dsimp only at hkeep
    by_cases hse : s = ""
    · rw [if_pos hse] at hkeep
      simp at hkeep
    · exact ⟨s, rfl, hse⟩

theorem claim9_witness :
    (⟨5, "Lou", "V", none, none, some "1990-06-10", none⟩ : Person)
        ∈ [⟨5, "Lou", "V", none, none, some "1990-06-10", none⟩] ∧
      ∃ s, (⟨5, "Lou", "V", none, none, some "1990-06-10", none⟩ : Person).birthday
          = some s ∧ s ≠ "" :=
  claim9_result_from_input_with_birthday ⟨2024, 6, 1, 0⟩
    [⟨5, "Lou", "V", none, none, some "1990-06-10", none⟩]
    ⟨5, "Lou", "V", none, none, some "1990-06-10", none⟩ (by decide)

/-- C10: `getAge` returns `null` exactly when the birthday argument is
absent (`none`) or empty (both are falsy in the source); every present
non-empty birthday yields a JS number (`NaN` for an unparseable string);
and a parseable birth date less than one whole year before today (the
spec's whole-year difference is 0) yields age 0. -/
theorem claim10_age_null_iff_absent :
    (∀ (today : CalDT) (b : Option String),
      getAge today b = none ↔ (b = none ∨ b = some "")) ∧
    (∀ (today : CalDT) (s : String), s ≠ "" → ∃ v, getAge today (some s) = some v) ∧
    (∀ (yt : Int) (mt dt st : Nat) (s : String) (bd : CalDT),
      (⟨yt, mt, dt, st⟩ : CalDT).Valid → dayjs s = .valid bd →
      (bd.y < yt ∨ (bd.y = yt ∧ (bd.m < mt ∨ (bd.m = mt ∧ bd.d ≤ dt)))) →
      specAge ⟨yt, mt, dt, st⟩ bd = 0 →
      getAge ⟨yt, mt, dt, st⟩ (some s) = some (.int 0)) := by
  refine ⟨?_, ?_, ?_⟩
  · intro today b
    constructor
    · intro h
      cases b with
      | none => exact Or.inl rfl
      | some s =>
        by_cases hse : s = ""
        · exact Or.inr (by rw [hse])
        · exfalso
          unfold getAge at h
          dsimp only at h
          rw [if_neg hse] at h
          cases hd : dayjs s <;> rw [hd] at h <;> simp at h
    · intro h
      rcases h with h | h <;> subst h <;> simp [getAge]
  · intro today s hse
    unfold getAge
    dsimp only
    rw [if_neg hse]
    cases hd : dayjs s with
    | invalid => exact ⟨.nan, rfl⟩
    | valid bd => exact ⟨_, rfl⟩
  · intro yt mt dt st s bd htv hps hord h0
    rw [getAge_eq_specAge yt mt dt st s bd htv hps hord, h0]

theorem claim10_witness :
    (getAge ⟨2024, 6, 1, 0⟩ none = none ↔
      ((none : Option String) = none ∨ (none : Option String) = some "")) ∧
    (∃ v, getAge ⟨2024, 6, 1, 0⟩ (some "zzz") = some v) ∧
    getAge ⟨2024, 6, 1, 0⟩ (some "2024-05-30") = some (.int 0) :=
  ⟨claim10_age_null_iff_absent.1 ⟨2024, 6, 1, 0⟩ none,
   claim10_age_null_iff_absent.2.1 ⟨2024, 6, 1, 0⟩ "zzz" (by decide),
   claim10_age_null_iff_absent.2.2 2024 6 1 0 "2024-05-30" ⟨2024, 5, 30, 0⟩
     (by decide) (by decide) (by decide) (by decide)⟩
